import Mathlib

/-!
Shallow embedding of cargo-license-hound (src/main.rs, src/license.rs,
src/github.rs, src/lockfile.rs).

Modelling conventions:
- Rust strings are Lean `String` (logically a `List Char`); the text
  utilities the program uses from the Rust standard library (`str::lines`,
  `str::trim`, `str::find`, `str::starts_with`, `str::to_lowercase`) and
  from itertools (`coalesce`, `iproduct!`) are embedded as structural
  recursions over `List Char` so that every definition is executable by the
  kernel.  `to_lowercase` and `trim` are modelled on the ASCII range (the
  program only ever feeds them license texts, and every text exercised here
  is ASCII).
- File-system reads (`read_file` on `manifest_path.with_file_name(name)`)
  are modelled by an environment `fs : String → Option String` from
  candidate file name to file content; a failed read is `none`.
- HTTP is modelled by environments mapping a URL to an abstract response
  (`ApiResponse` for the structured license endpoint, `RawResponse` for raw
  file fetches).  Messages the program prints to stderr are modelled as a
  `List Diag` result component where a claim mentions them.
- `cargo`'s package download plumbing in `LicenseHound::chase` consists of
  `.unwrap()`ed I/O; its results (the manifest path and metadata) are
  parameters of `chase`.
-/

deriving instance DecidableEq for Except

namespace LicenseHound

/-! ## Text utilities (Rust `str` methods used by main.rs) -/

/-- Rust `char::is_whitespace`, restricted to the ASCII whitespace
characters (space, tab, line feed, vertical tab, form feed, carriage
return); the license texts processed here contain no other whitespace. -/
def isWS (c : Char) : Bool :=
  c = ' ' ∨ c = '\t' ∨ c = '\n' ∨ c = '\x0b' ∨ c = '\x0c' ∨ c = '\r'

/-- Rust `str::trim`: drop whitespace from the front, then from the back. -/
def trimL (l : List Char) : List Char :=
  (l.dropWhile isWS).rdropWhile isWS

/-- Rust ASCII lowercasing of one character (`str::to_lowercase` acts
characterwise on ASCII input). -/
def lowerChar (c : Char) : Char :=
  if 'A' ≤ c ∧ c ≤ 'Z' then Char.ofNat (c.toNat + 32) else c

/-- Rust `str::to_lowercase` on ASCII text. -/
def lowerL (l : List Char) : List Char := l.map lowerChar

/-- Whether the first list is a prefix of the second (Bool,
Rust `str::starts_with`). -/
def isPrefixL : List Char → List Char → Bool
  | [], _ => true
  | _ :: _, [] => false
  | p :: ps, c :: cs => p = c && isPrefixL ps cs

/-- Rust `str::find(needle).is_some()`: the needle occurs as a contiguous
substring of the haystack. -/
def containsSubL : List Char → List Char → Bool
  | [], needle => needle.isEmpty
  | c :: t, needle => isPrefixL needle (c :: t) || containsSubL t needle

/-- Rust `haystack.find(needle).is_some()` on `String`. -/
def strContains (hay needle : String) : Bool := containsSubL hay.data needle.data

/-- Rust `s.starts_with(p)` on `String`. -/
def strStartsWith (s p : String) : Bool := isPrefixL p.data s.data

/-- Helper of `rustLines`: `cur` is the current line, reversed.  At a
`'\n'` the current line is emitted with one `'\r'` dropped from its end
when present (a `"\r\n"` line ending); at the end of input a non-empty
final line without a line ending is emitted, an empty one is not. -/
def rustLinesAux (cur : List Char) : List Char → List (List Char)
  | [] => if cur = [] then [] else [cur.reverse]
  | c :: rest =>
    if c = '\n' then
      (if cur.head? = some '\r' then cur.tail else cur).reverse :: rustLinesAux [] rest
    else
      rustLinesAux (c :: cur) rest

/-- Rust `str::lines`: split at line endings (`"\n"` or `"\r\n"`), the
final line ending optional. -/
def rustLines (l : List Char) : List (List Char) := rustLinesAux [] l

/-! ## License catalog (src/license.rs; src/main.rs duplicates `LicenseId`
with the same variants and `suffixes` table) -/

/-- The `LicenseId` enumeration (identical in src/license.rs and
src/main.rs). -/
inductive LicenseId
  | Bsd3Clause
  | Mit
  | Mpl2
deriving DecidableEq

/-- `LicenseId::suffixes` (src/license.rs lines 24-31; the copy in
src/main.rs lines 24-31 is identical). -/
def LicenseId.suffixes : LicenseId → List String
  | .Mit => ["-MIT"]
  | .Bsd3Clause => []
  | .Mpl2 => []

/-- `LICENSE_BASE_NAMES` (src/license.rs lines 5-9). -/
def LICENSE_BASE_NAMES : List String := ["LICENSE", "COPYING", "LICENCE"]

/-- `LICENSE_EXTENSIONS` (src/license.rs lines 11-14). -/
def LICENSE_EXTENSIONS : List String := ["", ".txt"]

/-- `LicenseId::guess_filenames` (src/license.rs lines 33-50):
`iproduct!(LICENSE_BASE_NAMES, suffixes ++ [""], LICENSE_EXTENSIONS)`,
the first iterator varying slowest (base outer, suffix middle, extension
inner).  The lazy iterator is embedded as the list it yields. -/
def LicenseId.guess_filenames (id : LicenseId) : List (String × String × String) :=
  LICENSE_BASE_NAMES.flatMap fun a =>
    (id.suffixes ++ [""]).flatMap fun b =>
      LICENSE_EXTENSIONS.map fun c => (a, b, c)

/-- `LicenseId::spdx_id` (src/license.rs lines 52-59). -/
def LicenseId.spdx_id : LicenseId → String
  | .Mit => "MIT"
  | .Bsd3Clause => "BSD-3-Clause"
  | .Mpl2 => "MPL-2.0"

/-- `LicenseSource` as defined in src/license.rs lines 62-67.  The private
duplicate in src/main.rs lines 43-50 differs in the `GitHubApi` payload
(`repository`/`path` instead of `url`) but is only ever constructed through
its `Crate` variant, which both definitions share. -/
inductive LicenseSource
  | Crate (file_name : String)
  | GitHubApi (url : String)
  | GitHubRepo (url : String)
deriving DecidableEq

/-- `LicenseError` (src/main.rs lines 62-69); `PathBuf` payloads are
modelled as strings. -/
inductive LicenseError
  | NoSource
  | LicenseNotDeclared (path : String)
  | UnableToRecoverLicenseFile (path : String)
  | UnableToRecoverAttribution (text : String)
  | UnacceptableLicense (declaration : String)
deriving DecidableEq

/-- `LicenseDescription` (src/main.rs lines 52-60). -/
structure LicenseDescription where
  chosen_license : LicenseId
  copyright_notice : String
  full_spdx_license : String
  full_license_document : String
  license_source : LicenseSource
  link : Option String
deriving DecidableEq

/-- The slice of cargo manifest metadata `chase` reads
(`package.manifest().metadata()` in src/main.rs): the declared license
string and the three optional URLs used for the `link` fallback. -/
structure Metadata where
  license : Option String
  homepage : Option String
  repository : Option String
  documentation : Option String
deriving DecidableEq

/-- `lockfile::Package` (src/lockfile.rs lines 25-30). -/
structure Package where
  name : String
  version : String
  source : Option String
deriving DecidableEq

/-! ## Copyright extractor (src/main.rs lines 93-117) -/

/-- The closure passed to itertools `coalesce` in
`recover_copyright_notice`: an empty next line breaks the merge
(`Err((a, b))` emits `a` and restarts from `b`); merging into an empty
accumulator starts from the next line; otherwise the two lines are joined
with a single space (`format!("{} {}", a, b)`). -/
def coalesceStep (a b : List Char) : Except (List Char × List Char) (List Char) :=
  if b.length = 0 then .error (a, b)
  else if a.length = 0 then .ok b
  else .ok (a ++ ' ' :: b)

/-- itertools `Itertools::coalesce` specialised to `coalesceStep`: the
accumulator is merged with each next element, or emitted when the closure
declines; the final accumulator is always emitted. -/
def runCoalesce : List Char → List (List Char) → List (List Char)
  | acc, [] => [acc]
  | acc, b :: rest =>
    match coalesceStep acc b with
    | .ok merged => runCoalesce merged rest
    | .error (emit, keep) => emit :: runCoalesce keep rest

/-- The per-line preprocessing of `recover_copyright_notice`: strip one
leading `"//"` comment marker when present, then trim whitespace. -/
def cleanLine (x : List Char) : List Char :=
  trimL (if isPrefixL "//".data x then x.drop 2 else x)

/-- The merged paragraphs of `recover_copyright_notice`: lines, cleaned,
then coalesced (an empty input yields no paragraph, matching coalesce over
an empty iterator). -/
def mergedParagraphs (license_text : String) : List String :=
  (match (rustLines license_text.data).map cleanLine with
   | [] => []
   | h :: t => runCoalesce h t).map fun l => String.mk l

/-- The filter predicate of `recover_copyright_notice`:
`x.to_lowercase().find("copyright").is_some()`. -/
def containsCopyright (x : String) : Bool :=
  containsSubL (lowerL x.data) "copyright".data

/-- `recover_copyright_notice` (src/main.rs lines 93-117): the first merged
paragraph containing "copyright" case-insensitively, or
`UnableToRecoverAttribution` carrying the full original text. -/
def recover_copyright_notice (license_text : String) : Except LicenseError String :=
  match ((mergedParagraphs license_text).filter containsCopyright).head? with
  | some x => .ok x
  | none => .error (.UnableToRecoverAttribution license_text)

/-! ## Local file prober (`LicenseHound::hound_license_file`,
src/main.rs lines 126-144).  Note: this function builds its own candidate
names; it does not call `LicenseId::guess_filenames`. -/

/-- `candidate_base_names` (src/main.rs lines 129-132): only `LICENSE` and
`LICENCE`, without `COPYING`. -/
def candidate_base_names : List String := ["LICENSE", "LICENCE"]

/-- The inner loop of `hound_license_file`: for one suffix, try each base
name and return the first successfully read file. -/
def houndBases (fs : String → Option String) (suffix : String) :
    List String → Option (String × String)
  | [] => none
  | base_name :: rest =>
    let candidate_name := base_name ++ suffix
    match fs candidate_name with
    | some license_text => some (candidate_name, license_text)
    | none => houndBases fs suffix rest

/-- The outer loop of `hound_license_file`: suffixes (the license's own
suffixes chained with the empty suffix) in the outer position. -/
def houndSuffixes (fs : String → Option String) :
    List String → Option (String × String)
  | [] => none
  | suffix :: rest =>
    match houndBases fs suffix candidate_base_names with
    | some hit => some hit
    | none => houndSuffixes fs rest

/-- `LicenseHound::hound_license_file` (src/main.rs lines 126-144): nested
loops, suffix outer over `chosen_license.suffixes() ++ [""]`, base name
inner over `candidate_base_names`; the first readable candidate is returned
as `LicenseSource::Crate`, otherwise `UnableToRecoverLicenseFile` with the
package directory (`manifest_path.with_file_name("")`, the parameter
`dir`). -/
def hound_license_file (fs : String → Option String) (dir : String)
    (chosen_license : LicenseId) : Except LicenseError (LicenseSource × String) :=
  match houndSuffixes fs (chosen_license.suffixes ++ [""]) with
  | some (candidate_name, license_text) => .ok (.Crate candidate_name, license_text)
  | none => .error (.UnableToRecoverLicenseFile dir)

/-! ## Declared-license classifier and resolver (`LicenseHound::chase`,
src/main.rs lines 146-189) -/

/-- The declared-license classifier, inline in `chase` (src/main.rs lines
162-171): substring matching in fixed order MIT, MPL-2.0, BSD-3-Clause,
else `UnacceptableLicense` carrying the declaration. -/
def chooseLicense (spdx_license : String) : Except LicenseError LicenseId :=
  if strContains spdx_license "MIT" then .ok .Mit
  else if strContains spdx_license "MPL-2.0" then .ok .Mpl2
  else if strContains spdx_license "BSD-3-Clause" then .ok .Bsd3Clause
  else .error (.UnacceptableLicense spdx_license)

/-- `LicenseHound::chase` (src/main.rs lines 146-189).  The cargo source
loading and download between the `NoSource` check and the metadata reads
are `.unwrap()`ed I/O and are represented by the parameters: `fs` and `dir`
stand for the downloaded package tree, `manifest_path` for
`package.manifest_path()`, and `md` for `package.manifest().metadata()`.
The function consults no hosted prober: after the local
`hound_license_file` its error propagates through `?`. -/
def chase (fs : String → Option String) (manifest_path dir : String)
    (md : Metadata) (package : Package) : Except LicenseError LicenseDescription := do
  let _source ← match package.source with
    | some s => Except.ok s
    | none => Except.error LicenseError.NoSource
  let spdx_license ← match md.license with
    | some s => Except.ok s
    | none => Except.error (LicenseError.LicenseNotDeclared manifest_path)
  let chosen_license ← chooseLicense spdx_license
  let (license_source, full_license_document) ← hound_license_file fs dir chosen_license
  let copyright_notice ← recover_copyright_notice full_license_document
  Except.ok {
    chosen_license := chosen_license
    copyright_notice := copyright_notice
    full_spdx_license := spdx_license
    full_license_document := full_license_document
    license_source := license_source
    link := md.homepage.orElse fun _ => md.repository.orElse fun _ => md.documentation
  }

/-! ## GitHub probers (src/github.rs).  These functions are compiled in the
upstream crate's github module; in this snapshot nothing in src/main.rs
declares or calls that module. -/

/-- Value of one character of the standard base64 alphabet. -/
def b64Val (c : Char) : Option Nat :=
  if 'A' ≤ c ∧ c ≤ 'Z' then some (c.toNat - 65)
  else if 'a' ≤ c ∧ c ≤ 'z' then some (c.toNat - 97 + 26)
  else if '0' ≤ c ∧ c ≤ '9' then some (c.toNat - 48 + 52)
  else if c = '+' then some 62
  else if c = '/' then some 63
  else none

/-- Standard base64 decoding of four-character groups with `=` padding
(the character set and padding of the base64 crate's `MIME` config);
`none` on any malformed input. -/
def b64Chunks : List Char → Option (List Nat)
  | [] => some []
  | c1 :: c2 :: c3 :: c4 :: rest =>
    match b64Val c1, b64Val c2 with
    | some v1, some v2 =>
      if c3 = '=' then
        if c4 = '=' ∧ rest = [] then some [v1 * 4 + v2 / 16] else none
      else
        match b64Val c3 with
        | some v3 =>
          if c4 = '=' then
            if rest = [] then some [v1 * 4 + v2 / 16, v2 % 16 * 16 + v3 / 4] else none
          else
            match b64Val c4, b64Chunks rest with
            | some v4, some more =>
              some ((v1 * 4 + v2 / 16) :: (v2 % 16 * 16 + v3 / 4) :: (v3 % 4 * 64 + v4) :: more)
            | _, _ => none
        | none => none
    | _, _ => none
  | _ => none

/-- Whitespace stripping the base64 crate's `MIME` config performs before
decoding (tolerating the CRLF line wrapping of MIME-encoded content). -/
def b64StripWS (l : List Char) : List Char :=
  l.filter fun c => !(c = '\r' ∨ c = '\n' ∨ c = ' ' ∨ c = '\t')

/-- Whether a byte is a UTF-8 continuation byte. -/
def utf8Cont (b : Nat) : Prop := 128 ≤ b ∧ b ≤ 191

instance (b : Nat) : Decidable (utf8Cont b) := by unfold utf8Cont; infer_instance

/-- Rust `String::from_utf8`: strict UTF-8 decoding of a byte list
(overlong forms, surrogates and out-of-range code points rejected). -/
def utf8Decode : List Nat → Option (List Char)
  | [] => some []
  | b1 :: rest =>
    if b1 < 128 then (utf8Decode rest).map fun cs => Char.ofNat b1 :: cs
    else if 194 ≤ b1 ∧ b1 ≤ 223 then
      match rest with
      | b2 :: rest2 =>
        if utf8Cont b2 then
          (utf8Decode rest2).map fun cs => Char.ofNat ((b1 - 192) * 64 + (b2 - 128)) :: cs
        else none
      | [] => none
    else if 224 ≤ b1 ∧ b1 ≤ 239 then
      match rest with
      | b2 :: b3 :: rest2 =>
        if (if b1 = 224 then 160 ≤ b2 ∧ b2 ≤ 191
            else if b1 = 237 then 128 ≤ b2 ∧ b2 ≤ 159
            else utf8Cont b2) ∧ utf8Cont b3 then
          (utf8Decode rest2).map fun cs =>
            Char.ofNat ((b1 - 224) * 4096 + (b2 - 128) * 64 + (b3 - 128)) :: cs
        else none
      | _ => none
    else if 240 ≤ b1 ∧ b1 ≤ 244 then
      match rest with
      | b2 :: b3 :: b4 :: rest2 =>
        if (if b1 = 240 then 144 ≤ b2 ∧ b2 ≤ 191
            else if b1 = 244 then 128 ≤ b2 ∧ b2 ≤ 143
            else utf8Cont b2) ∧ utf8Cont b3 ∧ utf8Cont b4 then
          (utf8Decode rest2).map fun cs =>
            Char.ofNat ((b1 - 240) * 262144 + (b2 - 128) * 4096 + (b3 - 128) * 64 + (b4 - 128)) :: cs
        else none
      | _ => none
    else none

/-- `Encoding` (src/github.rs lines 18-22): the only supported content
encoding, `base64`. -/
inductive Encoding
  | Base64
deriving DecidableEq

/-- `Encoding::decode` (src/github.rs lines 24-32):
`base64::decode_config(input, base64::MIME)` followed by
`String::from_utf8`, any failure collapsed to `Err(())`. -/
def Encoding.decode : Encoding → String → Except Unit String
  | .Base64, input =>
    match b64Chunks (b64StripWS input.data) with
    | none => .error ()
    | some bytes =>
      match utf8Decode bytes with
      | none => .error ()
      | some cs => .ok (String.mk cs)

/-- `LicenseDescriptor` (src/github.rs lines 34-37). -/
structure LicenseDescriptor where
  spdx_id : String
deriving DecidableEq

/-- `LicenseDocument` (src/github.rs lines 39-45): the parsed JSON body of
the license endpoint. -/
structure LicenseDocument where
  download_url : String
  content : String
  encoding : Encoding
  license : LicenseDescriptor
deriving DecidableEq

/-- Outcome of the GET in `license_file_from_license_api`, by the branches
the function distinguishes: no response at all (`send().ok()` fails), the
403 / 404 / other-failure status checks, or a success whose JSON body may
or may not parse as a `LicenseDocument`. -/
inductive ApiResponse
  | noResponse
  | forbidden
  | notFound
  | otherFailure
  | success (parsed : Option LicenseDocument)
deriving DecidableEq

/-- Diagnostics printed to stderr, as structured values: the 403 message
with its credentials hint, the unexpected-status message, and the
license-mismatch warning naming the package, the host's SPDX identifier
and the chosen license's SPDX identifier (in that order, as in the
`eprintln!` of src/github.rs lines 114-120). -/
inductive Diag
  | forbiddenHint (url : String)
  | unexpectedStatus (url : String)
  | mismatchWarn (package_name host_spdx_id chosen_spdx_id : String)
deriving DecidableEq

/-- `license_file_from_license_api` (src/github.rs lines 88-130).  `api`
maps the request URL to its response.  The pair's second component is the
list of stderr diagnostics the call emits. -/
def license_file_from_license_api (api : String → ApiResponse)
    (owner repo package_name : String) (chosen_license : LicenseId) :
    Option (LicenseSource × String) × List Diag :=
  let license_url := "https://api.github.com/repos/" ++ owner ++ "/" ++ repo ++ "/license"
  match api license_url with
  | .noResponse => (none, [])
  | .forbidden => (none, [.forbiddenHint license_url])
  | .notFound => (none, [])
  | .otherFailure => (none, [.unexpectedStatus license_url])
  | .success none => (none, [])
  | .success (some d) =>
    if chosen_license.spdx_id ≠ d.license.spdx_id then
      (none, [.mismatchWarn package_name d.license.spdx_id chosen_license.spdx_id])
    else
      match d.encoding.decode d.content with
      | .ok text => (some (.GitHubApi d.download_url, text), [])
      | .error _ => (none, [])

/-- Outcome of the GET in `get_license_file`: no response, 403, a success
whose body may fail to read as UTF-8 (`read_to_string`), or any other
non-success status. -/
inductive RawResponse
  | noResponse
  | forbidden
  | success (body : Option String)
  | failure
deriving DecidableEq

/-- `get_license_file` (src/github.rs lines 132-152); the diagnostics are
the structured stderr output. -/
def get_license_file (fetch : String → RawResponse) (url : String) :
    Option String × List Diag :=
  match fetch url with
  | .noResponse => (none, [])
  | .forbidden => (none, [.forbiddenHint url])
  | .success (some contents) => (some contents, [])
  | .success none => (none, [])
  | .failure => (none, [])

/-- The loop of `license_file_from_github_repo`: raw-content URLs built
from each `guess_filenames` candidate against the `master` branch; on a
fetched body the loop stops (stderr output of the per-candidate calls is
not collected here, matching the value the Rust function returns). -/
def githubRepoLoop (fetch : String → RawResponse) (owner repo : String) :
    List (String × String × String) → Option (LicenseSource × String)
  | [] => none
  | (a, b, c) :: rest =>
    let url := "https://raw.githubusercontent.com/" ++ owner ++ "/" ++ repo
      ++ "/master/" ++ a ++ b ++ c
    match (get_license_file fetch url).fst with
    | some license => some (.GitHubRepo url, license)
    | none => githubRepoLoop fetch owner repo rest

/-- `license_file_from_github_repo` (src/github.rs lines 154-166). -/
def license_file_from_github_repo (fetch : String → RawResponse)
    (owner repo _package_name : String) (chosen_license : LicenseId) :
    Option (LicenseSource × String) :=
  githubRepoLoop fetch owner repo chosen_license.guess_filenames

/-- Whether `needle` is a character-for-character prefix of `l`, returning
the remainder. -/
def dropPrefixL : List Char → List Char → Option (List Char)
  | [], l => some l
  | _ :: _, [] => none
  | p :: ps, c :: cs => if p = c then dropPrefixL ps cs else none

/-- The tails `URL_SCHEMA`'s suffix `(.git)?/?$` accepts after the maximal
dot-free slash-free repo segment.  The remainder after that greedy segment
is empty or starts with `'.'` or `'/'`; regex backtracking can never
shrink the greedy segment into a successful match that this direct test
misses, because the bytes handed back would have to spell `git`, which the
greedy segment would then have kept.  `.` in the regex matches any
character except a newline. -/
def gitTailOk (r : List Char) : Bool :=
  match r with
  | [] => true
  | ['/'] => true
  | c :: rest => c ≠ '\n' && (rest = "git".data ∨ rest = "git/".data)

/-- `URL_SCHEMA.captures` (src/github.rs line 12): the regex
`^https://github.com/([^/]+)/([^/.]+)(.git)?/?$`, returning the owner and
repo capture groups. -/
def urlSchemaCaptures (url : String) : Option (String × String) :=
  match dropPrefixL "https://github.com/".data url.data with
  | none => none
  | some rest =>
    let owner := rest.takeWhile fun c => c ≠ '/'
    if owner = [] then none
    else
      match rest.drop owner.length with
      | [] => none
      | s :: tail =>
        if s = '/' then
          let repo := tail.takeWhile fun c => c ≠ '/' ∧ c ≠ '.'
          if repo = [] then none
          else if gitTailOk (tail.drop repo.length) then
            some (String.mk owner, String.mk repo)
          else none
        else none

/-- `license_file_from_github_core` (src/github.rs lines 168-177): parse
the repository URL with `URL_SCHEMA`; the structured license API first,
then, when it yields nothing, the raw-repository prober, short-circuiting
through `Option::or_else`. -/
def license_file_from_github_core (api : String → ApiResponse)
    (fetch : String → RawResponse) (repo_url : Option String)
    (package_name : String) (chosen_license : LicenseId) :
    Option (LicenseSource × String) :=
  match repo_url with
  | none => none
  | some u =>
    match urlSchemaCaptures u with
    | none => none
    | some (owner, repo) =>
      match (license_file_from_license_api api owner repo package_name chosen_license).fst with
      | some hit => some hit
      | none => license_file_from_github_repo fetch owner repo package_name chosen_license

/-! ## Concrete fixtures -/

/-- `RAW_MIT` (src/github.rs line 221): the decoded MIT license document of
the module's unit tests, also the text the spec's extractor example uses. -/
def mitLicenseText : String := "The MIT License (MIT)\n\nCopyright (c) 2013 Ben Balter\n\nPermission is hereby granted, free of charge, to any person obtaining a copy of\nthis software and associated documentation files (the \"Software\"), to deal in\nthe Software without restriction, including without limitation the rights to\nuse, copy, modify, merge, publish, distribute, sublicense, and/or sell copies of\nthe Software, and to permit persons to whom the Software is furnished to do so,\nsubject to the following conditions:\n\nThe above copyright notice and this permission notice shall be included in all\ncopies or substantial portions of the Software.\n\nTHE SOFTWARE IS PROVIDED \"AS IS\", WITHOUT WARRANTY OF ANY KIND, EXPRESS OR\nIMPLIED, INCLUDING BUT NOT LIMITED TO THE WARRANTIES OF MERCHANTABILITY, FITNESS\nFOR A PARTICULAR PURPOSE AND NONINFRINGEMENT. IN NO EVENT SHALL THE AUTHORS OR\nCOPYRIGHT HOLDERS BE LIABLE FOR ANY CLAIM, DAMAGES OR OTHER LIABILITY, WHETHER\nIN AN ACTION OF CONTRACT, TORT OR OTHERWISE, ARISING FROM, OUT OF OR IN\nCONNECTION WITH THE SOFTWARE OR THE USE OR OTHER DEALINGS IN THE SOFTWARE.\n"

/-- A `LicenseDocument` like the `EXAMPLE_RESPONSE` of src/github.rs, with
`spdx_id` `"MIT"` and base64 content decoding to `"Copyright"`. -/
def exampleDoc : LicenseDocument :=
  { download_url := "https://raw.githubusercontent.com/benbalter/gman/master/LICENSE"
    content := "Q29weXJpZ2h0"
    encoding := .Base64
    license := { spdx_id := "MIT" } }

/-! ## Verification-side definitions -/

/-- The flat candidate-name sequence `hound_license_file` effectively
walks: suffixes (license suffixes then the empty suffix) in the outer
position, the two base names inner, each candidate `base ++ suffix`. -/
def localCandidates (chosen_license : LicenseId) : List String :=
  (chosen_license.suffixes ++ [""]).flatMap fun suffix =>
    candidate_base_names.map fun base_name => base_name ++ suffix

/-- First successful read over a candidate-name list: the name together
with the content of the first name the file system resolves. -/
def firstRead (fs : String → Option String) (names : List String) :
    Option (String × String) :=
  names.findSome? fun n => (fs n).map fun t => (n, t)

/-- Shape invariant of merged paragraphs: no newline anywhere, no
whitespace at the front, no whitespace at the back. -/
def NiceL (l : List Char) : Prop :=
  (∀ c, l.head? = some c → isWS c = false) ∧
  (∀ c, l.reverse.head? = some c → isWS c = false) ∧
  '\n' ∉ l

/-! # Claims -/

/-- C3: for every value of the `LicenseId` enumeration (Mit, Bsd3Clause,
Mpl2), `guess_filenames` yields a finite, non-empty, deterministic
sequence (a list of one fixed value per `LicenseId`) whose first element is
`("LICENSE", first license-specific suffix or the empty suffix, "")`; in
particular for Mit the first candidate is `("LICENSE", "-MIT", "")`. -/
theorem c3_guess_filenames_head (id : LicenseId) :
    id.guess_filenames ≠ [] ∧
    id.guess_filenames.head? = some ("LICENSE", (id.suffixes.head?).getD "", "") ∧
    LicenseId.Mit.guess_filenames.head? = some ("LICENSE", "-MIT", "") := by
  cases id <;> exact ⟨by decide, by decide, by decide⟩

/-- C4: the declared-license classifier returns Mit when the declaration
contains `"MIT"`; otherwise Mpl2 when it contains `"MPL-2.0"`; otherwise
Bsd3Clause when it contains `"BSD-3-Clause"`; otherwise it fails with
`UnacceptableLicense` carrying the declaration; in particular
`"MIT OR Apache-2.0"` classifies as Mit. -/
theorem c4_classifier (s : String) :
    (strContains s "MIT" = true → chooseLicense s = .ok .Mit) ∧
    (strContains s "MIT" = false → strContains s "MPL-2.0" = true →
      chooseLicense s = .ok .Mpl2) ∧
    (strContains s "MIT" = false → strContains s "MPL-2.0" = false →
      strContains s "BSD-3-Clause" = true → chooseLicense s = .ok .Bsd3Clause) ∧
    (strContains s "MIT" = false → strContains s "MPL-2.0" = false →
      strContains s "BSD-3-Clause" = false →
      chooseLicense s = .error (.UnacceptableLicense s)) ∧
    chooseLicense "MIT OR Apache-2.0" = .ok .Mit := by
  refine ⟨fun h1 => ?_, fun h1 h2 => ?_, fun h1 h2 h3 => ?_, fun h1 h2 h3 => ?_, by decide⟩ <;>
    simp [chooseLicense, *]

/-- C5: applied to the MIT license document (the `RAW_MIT` text), the
copyright extractor returns exactly `"Copyright (c) 2013 Ben Balter"`. -/
theorem c5_extractor_mit :
    recover_copyright_notice mitLicenseText = .ok "Copyright (c) 2013 Ben Balter" := by
  decide

/-- C9: a package record whose source locator is absent resolves to the
`NoSource` error, whatever the file system, paths and manifest metadata
hold — in particular before any license-declaration parsing or probing
could depend on them. -/
theorem c9_no_source (fs : String → Option String) (manifest_path dir : String)
    (md : Metadata) (package : Package) (h : package.source = none) :
    chase fs manifest_path dir md package = .error .NoSource := by
  simp [chase, h, Bind.bind, Except.bind]

/-- Witness for C9 at a concrete sourceless package. -/
theorem c9_no_source_witness :
    chase (fun _ => none) "/p/Cargo.toml" "/p/"
      { license := some "MIT", homepage := none, repository := none,
        documentation := none }
      { name := "foo", version := "1.0.0", source := none } = .error .NoSource :=
  c9_no_source _ _ _ _ _ rfl

/-- C8: on a successful Hosted-API response carrying document `d`, if the
host's SPDX identifier equals the chosen license's canonical code the
prober returns `GitHubApi` with the download URL and the base64-decoded
content; if the identifiers differ it returns no-match (`none`, not a hard
error) and emits the warning naming the package and both identifiers; in
particular `spdx_id "MIT"` with chosen Mit succeeds and the same response
with chosen Bsd3Clause is a no-match. -/
theorem c8_api_cross_validation (d : LicenseDocument)
    (owner repo package_name : String) (chosen_license : LicenseId) :
    (chosen_license.spdx_id = d.license.spdx_id →
      ∀ text, d.encoding.decode d.content = .ok text →
        license_file_from_license_api (fun _ => .success (some d)) owner repo
            package_name chosen_license =
          (some (.GitHubApi d.download_url, text), [])) ∧
    (chosen_license.spdx_id ≠ d.license.spdx_id →
      license_file_from_license_api (fun _ => .success (some d)) owner repo
          package_name chosen_license =
        (none, [.mismatchWarn package_name d.license.spdx_id chosen_license.spdx_id])) ∧
    license_file_from_license_api (fun _ => .success (some exampleDoc)) "benbalter"
        "gman" "gman" .Mit =
      (some (.GitHubApi exampleDoc.download_url, "Copyright"), []) ∧
    license_file_from_license_api (fun _ => .success (some exampleDoc)) "benbalter"
        "gman" "gman" .Bsd3Clause =
      (none, [.mismatchWarn "gman" "MIT" "BSD-3-Clause"]) := by
  refine ⟨fun h text ht => ?_, fun h => ?_, by decide, by decide⟩ <;>
    simp [license_file_from_license_api, h, *]

/-- C1 (evidence of the missing hosted fallback): with no readable local
license file, a declared MIT license and a repository URL matching
`URL_SCHEMA`, `chase` terminates with `UnableToRecoverLicenseFile` — the
function consults no hosted prober (src/main.rs never declares the github
module, and `hound_license_file`'s error propagates through `?`) — even
though `license_file_from_github_core` on the same repository URL, with the
GitHub license API answering a matching MIT document, would succeed. -/
theorem c1_resolver_skips_hosted_probers :
    chase (fun _ => none) "/p/Cargo.toml" "/p/"
      { license := some "MIT", homepage := none,
        repository := some "https://github.com/benbalter/gman",
        documentation := none }
      { name := "gman", version := "1.0.0", source := some "registry+x" } =
      .error (.UnableToRecoverLicenseFile "/p/") ∧
    license_file_from_github_core (fun _ => .success (some exampleDoc))
        (fun _ => .noResponse) (some "https://github.com/benbalter/gman")
        "gman" .Mit =
      some (.GitHubApi exampleDoc.download_url, "Copyright") :=
  ⟨by decide, by decide⟩

/-- Order of findSome? over a filtered first match: the first element kept
by a filter is the first element satisfying the predicate. -/
theorem head?_filter_eq_find? (p : α → Bool) :
    ∀ l : List α, (l.filter p).head? = l.find? p
  | [] => rfl
  | a :: t => by
    by_cases h : p a <;>
      simp [List.filter_cons, List.find?_cons, h, head?_filter_eq_find? p t]

/-- C6: when no merged paragraph contains "copyright" case-insensitively
the extractor fails with `UnableToRecoverAttribution` carrying the full
original text; when some paragraph does, it succeeds with the first such
paragraph in scan order. -/
theorem c6_first_copyright_paragraph (s : String) :
    ((∀ p ∈ mergedParagraphs s, containsCopyright p = false) →
      recover_copyright_notice s = .error (.UnableToRecoverAttribution s)) ∧
    (∀ p, (mergedParagraphs s).find? containsCopyright = some p →
      recover_copyright_notice s = .ok p) := by
  constructor
  · intro h
    have hn : (mergedParagraphs s).find? containsCopyright = none :=
      List.find?_eq_none.mpr fun x hx => by simp [h x hx]
    simp [recover_copyright_notice, head?_filter_eq_find?, hn]
  · intro p hp
    simp [recover_copyright_notice, head?_filter_eq_find?, hp]

/-- Inner prober loop as a first-match over the mapped candidate names. -/
theorem houndBases_eq_firstRead (fs : String → Option String) (suffix : String) :
    ∀ bl : List String,
      houndBases fs suffix bl = firstRead fs (bl.map fun b => b ++ suffix)
  | [] => rfl
  | b :: rest => by
    simp only [houndBases, firstRead, List.map_cons, List.findSome?_cons]
    cases fs (b ++ suffix) <;>
      simp [houndBases_eq_firstRead fs suffix rest, firstRead]

/-- First-match distributes over list append by trying the front first. -/
theorem firstRead_append (fs : String → Option String) :
    ∀ A B : List String,
      firstRead fs (A ++ B) =
        match firstRead fs A with
        | some x => some x
        | none => firstRead fs B
  | [], B => rfl
  | a :: A, B => by
    simp only [List.cons_append, firstRead, List.findSome?_cons]
    cases fs a with
    | none => exact firstRead_append fs A B
    | some t => rfl

/-- Nested prober loops as a first-match over the flattened candidate
sequence. -/
theorem houndSuffixes_eq_firstRead (fs : String → Option String) :
    ∀ sl : List String,
      houndSuffixes fs sl =
        firstRead fs (sl.flatMap fun suffix => candidate_base_names.map fun b => b ++ suffix)
  | [] => rfl
  | suffix :: rest => by
    rw [List.flatMap_cons, firstRead_append]
    simp only [houndSuffixes, houndBases_eq_firstRead fs suffix candidate_base_names,
      houndSuffixes_eq_firstRead fs rest]

/-- C2 (amended): the Local File Prober attempts exactly the names
`base ++ suffix` with the suffixes of the chosen license followed by the
empty suffix in the outer loop and the base names `LICENSE`, `LICENCE` in
the inner loop, and returns the first successfully read file's name and
content as the package-tree (`Crate`) source, else
`UnableToRecoverLicenseFile`. -/
theorem c2_local_prober_candidates (fs : String → Option String) (dir : String)
    (chosen_license : LicenseId) :
    hound_license_file fs dir chosen_license =
      match firstRead fs (localCandidates chosen_license) with
      | some (n, t) => .ok (.Crate n, t)
      | none => .error (.UnableToRecoverLicenseFile dir) := by
  simp only [hound_license_file, houndSuffixes_eq_firstRead, localCandidates]

/-- C2 counterexample: `guess_filenames` lists `COPYING` among its
candidates, yet a package tree holding only `COPYING` makes the local
prober fail; and in a tree holding both `LICENCE-MIT` and `LICENSE` the
first `guess_filenames` candidate present is `LICENSE` while the prober
returns `LICENCE-MIT` — so the prober attempts neither the candidate set
nor the order of `guess_filenames`. -/
theorem c2_local_prober_counterexample :
    ((LicenseId.Mit.guess_filenames.map fun abc => abc.1 ++ abc.2.1 ++ abc.2.2).contains
        "COPYING" = true) ∧
    hound_license_file
        (fun n => if n = "COPYING" then some "Copyright (c) 2020 X" else none)
        "/p/" .Mit =
      .error (.UnableToRecoverLicenseFile "/p/") ∧
    firstRead
        (fun n => if n = "LICENCE-MIT" ∨ n = "LICENSE" then some "Copyright (c) 2020 X" else none)
        (LicenseId.Mit.guess_filenames.map fun abc => abc.1 ++ abc.2.1 ++ abc.2.2) =
      some ("LICENSE", "Copyright (c) 2020 X") ∧
    hound_license_file
        (fun n => if n = "LICENCE-MIT" ∨ n = "LICENSE" then some "Copyright (c) 2020 X" else none)
        "/p/" .Mit =
      .ok (.Crate "LICENCE-MIT", "Copyright (c) 2020 X") :=
  ⟨by decide, by decide, by decide, by decide⟩

/-- C10: on success the `link` field follows the fixed fallback homepage,
then repository, then documentation URL. -/
theorem c10_link_fallback (fs : String → Option String) (manifest_path dir : String)
    (md : Metadata) (package : Package) (d : LicenseDescription)
    (h : chase fs manifest_path dir md package = .ok d) :
    (∀ u, md.homepage = some u → d.link = some u) ∧
    (md.homepage = none → ∀ u, md.repository = some u → d.link = some u) ∧
    (md.homepage = none → md.repository = none →
      d.link = Metadata.documentation md) := by
  have hl : d.link =
      md.homepage.orElse fun _ => md.repository.orElse fun _ => Metadata.documentation md := by
    simp only [chase, Bind.bind, Except.bind] at h
    repeat' split at h
    any_goals exact (Except.noConfusion h)
    injection h with h2
    subst h2
    rfl
  refine ⟨fun u hu => ?_, fun h0 u hu => ?_, fun h0 h1 => ?_⟩ <;>
    simp [hl, *, Option.orElse]

/-- Witness for C10 at a concrete package whose metadata carries all three
URLs: the homepage wins. -/
theorem c10_link_fallback_witness :
    ({ chosen_license := .Mit, copyright_notice := "Copyright (c) 2020 X",
       full_spdx_license := "MIT", full_license_document := "Copyright (c) 2020 X",
       license_source := .Crate "LICENSE-MIT", link := some "https://home" } :
      LicenseDescription).link = some "https://home" :=
  (c10_link_fallback
      (fun n => if n = "LICENSE-MIT" then some "Copyright (c) 2020 X" else none)
      "/p/Cargo.toml" "/p/"
      { license := some "MIT", homepage := some "https://home",
        repository := some "https://repo", documentation := some "https://docs" }
      { name := "foo", version := "1.0.0", source := some "registry+x" }
      _ (by decide)).1 "https://home" rfl

/-- Head of a `dropWhile` never satisfies the dropped predicate. -/
theorem head?_dropWhile_false (p : Char → Bool) :
    ∀ (l : List Char) (c : Char), (l.dropWhile p).head? = some c → p c = false := by
  intro l
  induction l with
  | nil => intro c h; cases h
  | cons a t ih =>
    intro c h
    by_cases hp : p a
    · rw [List.dropWhile_cons_of_pos hp] at h
      exact ih c h
    · rw [List.dropWhile_cons_of_neg hp] at h
      cases h
      exact Bool.of_not_eq_true hp

/-- `dropWhile` is the identity when the head does not satisfy the
predicate. -/
theorem dropWhile_eq_self_of_head (p : Char → Bool) (l : List Char)
    (h : ∀ c, l.head? = some c → p c = false) : l.dropWhile p = l := by
  cases l with
  | nil => rfl
  | cons a t => simp [List.dropWhile_cons, h a rfl]

/-- Trimming fixes a paragraph that satisfies the shape invariant. -/
theorem nice_trimL_eq_self {l : List Char} (h : NiceL l) : trimL l = l := by
  have h1 : l.dropWhile isWS = l := dropWhile_eq_self_of_head _ _ h.1
  have h2 : l.reverse.dropWhile isWS = l.reverse := dropWhile_eq_self_of_head _ _ h.2.1
  simp [trimL, h1, List.rdropWhile, h2]

/-- Characters of a trimmed list come from the original list. -/
theorem mem_trimL {l : List Char} {c : Char} (h : c ∈ trimL l) : c ∈ l := by
  have h1 : c ∈ l.dropWhile isWS :=
    ((List.rdropWhile_prefix isWS (l.dropWhile isWS)).sublist.subset) h
  exact (List.dropWhile_suffix isWS).sublist.subset h1

/-- Lists sharing a nonempty prefix share their head. -/
theorem head?_of_prefix {l1 l2 : List Char} (h : l1 <+: l2) (hne : l1 ≠ []) :
    l2.head? = l1.head? := by
  obtain ⟨t, rfl⟩ := h
  cases l1 with
  | nil => exact absurd rfl hne
  | cons a s => rfl

/-- The output of `trimL` satisfies the shape invariant whenever the input
has no newline. -/
theorem nice_trimL (x : List Char) (hn : '\n' ∉ x) : NiceL (trimL x) := by
  refine ⟨?_, ?_, fun hc => hn (mem_trimL hc)⟩
  · intro c hc
    have hne : trimL x ≠ [] := by
      intro h0
      rw [h0] at hc
      cases hc
    have hpre : trimL x <+: x.dropWhile isWS :=
      List.rdropWhile_prefix isWS (x.dropWhile isWS)
    have heq := head?_of_prefix hpre hne
    rw [hc] at heq
    exact head?_dropWhile_false isWS x c heq
  · intro c hc
    have hrev : (trimL x).reverse = (x.dropWhile isWS).reverse.dropWhile isWS := by
      simp [trimL, List.rdropWhile]
    rw [hrev] at hc
    exact head?_dropWhile_false isWS (x.dropWhile isWS).reverse c hc

/-- The empty paragraph satisfies the shape invariant. -/
theorem NiceL_nil : NiceL [] := by
  refine ⟨fun _ h => ?_, fun _ h => ?_, by simp⟩ <;> cases h

/-- Joining two nonempty shaped paragraphs with a single space yields a
shaped paragraph. -/
theorem NiceL_join {a b : List Char} (ha : NiceL a) (hb : NiceL b)
    (hna : a ≠ []) (hnb : b ≠ []) : NiceL (a ++ ' ' :: b) := by
  refine ⟨?_, ?_, ?_⟩
  · intro c hc
    cases a with
    | nil => exact absurd rfl hna
    | cons x xs => exact ha.1 c (by simpa using hc)
  · intro c hc
    have hr : (a ++ ' ' :: b).reverse = b.reverse ++ ' ' :: a.reverse := by
      simp
    rw [hr] at hc
    have hbr : b.reverse ≠ [] := by simpa using hnb
    cases hb2 : b.reverse with
    | nil => exact absurd hb2 hbr
    | cons y ys =>
      rw [hb2] at hc
      exact hb.2.1 c (by rw [hb2]; simpa using hc)
  · intro hc
    rcases List.mem_append.mp hc with h | h
    · exact ha.2.2 h
    · rcases List.mem_cons.mp h with h | h
      · exact absurd h (by decide)
      · exact hb.2.2 h

/-- Every paragraph the coalesce loop emits satisfies the shape invariant
when the accumulator and all pending lines do. -/
theorem runCoalesce_nice : ∀ (l : List (List Char)) (acc : List Char),
    NiceL acc → (∀ x ∈ l, NiceL x) → ∀ y ∈ runCoalesce acc l, NiceL y
  | [], acc, hacc, _, y, hy => by
    simp only [runCoalesce, List.mem_singleton] at hy
    exact hy ▸ hacc
  | b :: rest, acc, hacc, hl, y, hy => by
    have hrest : ∀ x ∈ rest, NiceL x := fun x hx => hl x (List.mem_cons_of_mem _ hx)
    by_cases hb : b.length = 0
    · have hb0 : b = [] := List.length_eq_zero.mp hb
      subst hb0
      simp only [runCoalesce, coalesceStep, if_pos rfl] at hy
      rcases List.mem_cons.mp hy with rfl | hy
      · exact hacc
      · exact runCoalesce_nice rest [] NiceL_nil hrest y hy
    · by_cases ha : acc.length = 0
      · have ha0 : acc = [] := List.length_eq_zero.mp ha
        subst ha0
        simp only [runCoalesce, coalesceStep, if_neg hb, if_pos rfl] at hy
        exact runCoalesce_nice rest b (hl b (List.mem_cons_self _ _)) hrest y hy
      · simp only [runCoalesce, coalesceStep, if_neg hb, if_neg ha] at hy
        have hmerged : NiceL (acc ++ ' ' :: b) :=
          NiceL_join hacc (hl b (List.mem_cons_self _ _))
            (fun h0 => ha (by simp [h0])) (fun h0 => hb (by simp [h0]))
        exact runCoalesce_nice rest (acc ++ ' ' :: b) hmerged hrest y hy

/-- Every line `rustLines` yields is free of newlines. -/
theorem rustLinesAux_no_newline : ∀ (l cur : List Char), '\n' ∉ cur →
    ∀ x ∈ rustLinesAux cur l, '\n' ∉ x
  | [], cur, hcur, x, hx => by
    rw [show rustLinesAux cur [] = if cur = [] then [] else [cur.reverse] from rfl] at hx
    by_cases h : cur = []
    · rw [if_pos h] at hx
      cases hx
    · rw [if_neg h] at hx
      rcases List.mem_singleton.mp hx with rfl
      simpa using hcur
  | c :: rest, cur, hcur, x, hx => by
    by_cases h : c = '\n'
    · subst h
      simp only [rustLinesAux, if_pos rfl] at hx
      rcases List.mem_cons.mp hx with rfl | hx
      · intro hmem
        apply hcur
        rcases List.mem_reverse.mp hmem with hm
        by_cases hr : cur.head? = some '\r'
        · rw [if_pos hr] at hm
          exact (List.tail_sublist cur).subset hm
        · rwa [if_neg hr] at hm
      · exact rustLinesAux_no_newline rest [] (by simp) x hx
    · simp only [rustLinesAux, if_neg h] at hx
      refine rustLinesAux_no_newline rest (c :: cur) ?_ x hx
      intro hm
      rcases List.mem_cons.mp hm with hm | hm
      · exact h hm.symm
      · exact hcur hm

/-- On newline-free input the line splitter yields the input itself as its
only line. -/
theorem rustLinesAux_single : ∀ (l cur : List Char), '\n' ∉ l →
    rustLinesAux cur l = if cur = [] ∧ l = [] then [] else [cur.reverse ++ l]
  | [], cur, _ => by
    by_cases h : cur = [] <;> simp [rustLinesAux, h]
  | c :: rest, cur, hl => by
    have hc : c ≠ '\n' := by
      intro h
      exact hl (h ▸ List.mem_cons_self c rest)
    have hc' : ¬(c = '\n') := hc
    rw [show rustLinesAux cur (c :: rest) =
        if c = '\n' then
          (if cur.head? = some '\r' then cur.tail else cur).reverse :: rustLinesAux [] rest
        else rustLinesAux (c :: cur) rest from rfl]
    rw [if_neg hc']
    rw [rustLinesAux_single rest (c :: cur) fun hm => hl (List.mem_cons_of_mem _ hm)]
    simp

/-- Every merged paragraph of the extractor satisfies the shape
invariant. -/
theorem mergedParagraphs_nice (s : String) :
    ∀ p ∈ mergedParagraphs s, NiceL p.data := by
  intro p hp
  simp only [mergedParagraphs] at hp
  rcases List.mem_map.mp hp with ⟨l, hl, rfl⟩
  have hall : ∀ x ∈ (rustLines s.data).map cleanLine, NiceL x := by
    intro x hx
    rcases List.mem_map.mp hx with ⟨y, hy, rfl⟩
    have hyn : '\n' ∉ y := rustLinesAux_no_newline s.data [] (by simp) y hy
    apply nice_trimL
    intro hm
    apply hyn
    by_cases hpf : isPrefixL "//".data y = true
    · rw [if_pos hpf] at hm
      exact (List.drop_sublist 2 y).subset hm
    · rwa [if_neg hpf] at hm
  cases hml : (rustLines s.data).map cleanLine with
  | nil => rw [hml] at hl; cases hl
  | cons h0 t0 =>
    rw [hml] at hl
    exact runCoalesce_nice t0 h0 (hall h0 (hml ▸ List.mem_cons_self _ _))
      (fun x hx => hall x (hml ▸ List.mem_cons_of_mem _ hx)) l hl

/-- Head membership. -/
theorem mem_of_head?_eq {α} {l : List α} {a : α} (h : l.head? = some a) : a ∈ l := by
  cases l with
  | nil => cases h
  | cons x t =>
    cases h
    exact List.mem_cons_self _ _

/-- C7 (amended): applying the extractor to a successful extraction result
that does not itself begin with the `"//"` comment marker returns that
result again (the marker proviso is forced: stripping recurs on
re-extraction, see the counterexample). -/
theorem c7_extractor_idempotent (s r : String)
    (h : recover_copyright_notice s = .ok r)
    (h2 : strStartsWith r "//" = false) :
    recover_copyright_notice r = .ok r := by
  obtain ⟨rl⟩ := r
  have hsome : ((mergedParagraphs s).filter containsCopyright).head? = some (String.mk rl) := by
    unfold recover_copyright_notice at h
    split at h
    · cases h
      assumption
    · cases h
  have hmemf := mem_of_head?_eq hsome
  have hmem : String.mk rl ∈ mergedParagraphs s := (List.mem_filter.mp hmemf).1
  have hcop : containsCopyright (String.mk rl) = true := (List.mem_filter.mp hmemf).2
  have hnice : NiceL rl := mergedParagraphs_nice s (String.mk rl) hmem
  have hne : rl ≠ [] := by
    intro h0
    subst h0
    rw [show containsCopyright (String.mk []) = false from rfl] at hcop
    cases hcop
  have hlines : rustLines rl = [rl] := by
    rw [rustLines, rustLinesAux_single rl [] hnice.2.2]
    simp [hne]
  have h2' : isPrefixL "//".data rl = false := h2
  have hclean : cleanLine rl = rl := by
    rw [cleanLine, if_neg (by simp [h2'])]
    exact nice_trimL_eq_self hnice
  show recover_copyright_notice (String.mk rl) = .ok (String.mk rl)
  rw [recover_copyright_notice, mergedParagraphs,
    show (String.mk rl).data = rl from rfl, hlines]
  simp only [List.map_cons, List.map_nil, hclean, runCoalesce]
  rw [List.filter_cons, if_pos (by simpa using hcop)]
  rfl

/-- Witness for C7 at the single-line input of the claim. -/
theorem c7_extractor_idempotent_witness :
    recover_copyright_notice "Copyright (c) 2020 X" = .ok "Copyright (c) 2020 X" :=
  c7_extractor_idempotent "Copyright (c) 2020 X" "Copyright (c) 2020 X"
    (by decide) (by decide)

/-- C7 counterexample to unconditional idempotence: the extractor succeeds
on `"//// Copyright X"` with the result `"// Copyright X"`, but re-applying
it to that result strips the comment marker again and yields
`"Copyright X"`, not the result itself. -/
theorem c7_extractor_counterexample :
    recover_copyright_notice "//// Copyright X" = .ok "// Copyright X" ∧
    recover_copyright_notice "// Copyright X" = .ok "Copyright X" :=
  ⟨by decide, by decide⟩

end LicenseHound
